import Mathlib

/-!
Verification of the in-memory LRU analysis cache (`backend/cache.py`).

The embedding models:
* user profiles as association lists of JSON primitive values, with
  `json.dumps(user_data, sort_keys=True)` rendered as sorting the fields by
  name and serializing them in Python's default format;
* image bytes as `List Nat`; the sampling `image_bytes[:10240] + image_bytes[-10240:]`
  uses Python slice semantics (short inputs yield the whole buffer);
* the two `hashlib.md5(...).hexdigest()` calls as an abstract pair of pure
  functions (a `Hashes` record): every property proved here depends only on
  congruence of the digest, never on its internals, so the theorems hold for
  the real MD5 in particular (`md5str s` stands for
  `hashlib.md5(s.encode()).hexdigest()`);
* `collections.OrderedDict` as a list of key/entry pairs, front = oldest
  (next to be evicted), back = most-recently-used; assignment to an existing
  key updates it in place (Python semantics), a new key is appended;
* `time.time()` as an explicit `now : Nat` argument to `get`/`set`;
* the eviction loop of `set` as an `Option`-valued recursion whose `none`
  case corresponds to the `StopIteration` Python would raise from
  `next(iter(self._cache))` on an empty dict (reachable only if
  `max_size = 0`).
-/

namespace SkinCache

/-- JSON primitive values allowed in a user profile (the profile is a flat
mapping of field name to primitive value). -/
inductive JVal where
  | null : JVal
  | bool : Bool → JVal
  | num : Int → JVal
  | str : String → JVal
deriving DecidableEq, Repr

/-- Serialization of one JSON primitive, as `json.dumps` renders it. -/
def JVal.dumps : JVal → String
  | .null => "null"
  | .bool true => "true"
  | .bool false => "false"
  | .num n => toString n
  | .str s => "\"" ++ s ++ "\""

/-- A user profile: a flat mapping field-name to primitive value, as the
Python dict passed to `_generate_key`. -/
abbrev Profile : Type := List (String × JVal)

/-- Ordering of profile fields by field name, the order `sort_keys=True`
uses. -/
def keyLE (a b : String × JVal) : Prop := a.1 ≤ b.1

instance : DecidableRel keyLE := fun a b => inferInstanceAs (Decidable (a.1 ≤ b.1))

instance : IsTotal (String × JVal) keyLE := ⟨fun a b => le_total a.1 b.1⟩

instance : IsTrans (String × JVal) keyLE := ⟨fun _ _ _ h1 h2 => le_trans h1 h2⟩

/-- Strict version of `keyLE`, used to compare sorted profiles with distinct
field names. -/
def keyLT (a b : String × JVal) : Prop := a.1 < b.1

instance : IsAntisymm (String × JVal) keyLT :=
  ⟨fun _ _ h1 h2 => absurd h2 (lt_asymm h1)⟩

/-- The profile fields sorted by name (`sort_keys=True`). -/
def sortProfile (p : Profile) : List (String × JVal) :=
  List.insertionSort keyLE p

/-- `json.dumps(user_data, sort_keys=True)`: fields sorted by name, rendered
with Python's default separators. -/
def dumpsProfile (p : Profile) : String :=
  "\x7b" ++
    String.intercalate ", "
      ((sortProfile p).map (fun kv => "\"" ++ kv.1 ++ "\": " ++ kv.2.dumps)) ++
    "\x7d"

/-- `image_bytes[:10240] + image_bytes[-10240:]` with Python slice
semantics: a buffer shorter than the window yields the whole buffer on each
side. -/
def imageSample (image_bytes : List Nat) : List Nat :=
  image_bytes.take 10240 ++ image_bytes.drop (image_bytes.length - 10240)

/-- The two digest calls of `_generate_key`, abstracted as pure functions:
`md5bytes bs` stands for `hashlib.md5(bytes(bs)).hexdigest()` and `md5str s`
for `hashlib.md5(s.encode()).hexdigest()`. All theorems below use only
congruence of these functions, so they hold for the real MD5. -/
structure Hashes where
  md5bytes : List Nat → String
  md5str : String → String

/-- `AnalysisCache._generate_key`: hash of the image sample, underscore,
hash of the deterministically serialized profile. -/
def generate_key (h : Hashes) (image_bytes : List Nat) (user_data : Profile) : String :=
  h.md5bytes (imageSample image_bytes) ++ "_" ++ h.md5str (dumpsProfile user_data)

/-- One stored cache entry: the `{"data": result, "timestamp": time.time()}`
dict. -/
structure CacheEntry (V : Type) where
  data : V
  timestamp : Nat
deriving DecidableEq, Repr

/-- The state of an `AnalysisCache`: configuration, the ordered map
(front = least-recently-used, back = most-recently-used) and the hit/miss
counters. -/
structure AnalysisCache (V : Type) where
  max_size : Nat
  ttl : Nat
  cache : List (String × CacheEntry V)
  hits : Nat
  misses : Nat
deriving DecidableEq, Repr

/-- `AnalysisCache.__init__`: empty map, zero counters. -/
def AnalysisCache.init (V : Type) (max_size ttl : Nat) : AnalysisCache V :=
  ⟨max_size, ttl, [], 0, 0⟩

/-- Dict lookup `d[k]` (as an option): the entry stored under `k`. -/
def odFind? {V : Type} (l : List (String × CacheEntry V)) (k : String) : Option (CacheEntry V) :=
  (l.find? (fun p => p.1 == k)).map (fun p => p.2)

/-- Dict membership `k in d`. -/
def odContains {V : Type} (l : List (String × CacheEntry V)) (k : String) : Bool :=
  l.any (fun p => p.1 == k)

/-- Dict deletion `del d[k]` (keys are unique in a dict, so removing the
first occurrence is exact). -/
def odErase {V : Type} (l : List (String × CacheEntry V)) (k : String) : List (String × CacheEntry V) :=
  l.eraseP (fun p => p.1 == k)

/-- `OrderedDict` assignment `d[k] = e`: an existing key is updated in
place, keeping its position; a new key is appended at the
most-recently-used end. -/
def odSet {V : Type} (l : List (String × CacheEntry V)) (k : String) (e : CacheEntry V) :
    List (String × CacheEntry V) :=
  if odContains l k then l.map (fun p => if p.1 == k then (k, e) else p)
  else l ++ [(k, e)]

/-- `AnalysisCache.get`: compute the key; on absence count a miss; on an
expired entry (`now - timestamp > ttl`) delete it and count a miss; on a
fresh entry move it to the most-recently-used end, count a hit and return
its data. Returns the optional result together with the updated state. -/
def AnalysisCache.get {V : Type} (h : Hashes) (c : AnalysisCache V)
    (image_bytes : List Nat) (user_data : Profile) (now : Nat) :
    Option V × AnalysisCache V :=
  let key := generate_key h image_bytes user_data
  match odFind? c.cache key with
  | none => (none, { c with misses := c.misses + 1 })
  | some entry =>
    if now - entry.timestamp > c.ttl then
      (none, { c with cache := odErase c.cache key, misses := c.misses + 1 })
    else
      (some entry.data,
        { c with cache := odErase c.cache key ++ [(key, entry)], hits := c.hits + 1 })

/-- The eviction loop of `AnalysisCache.set`:
`while len(self._cache) >= self.max_size: del self._cache[next(iter(self._cache))]`.
The `none` result is the `StopIteration` Python raises when the loop body
runs on an empty dict (only possible when `max_size = 0`). -/
def evictWhile {V : Type} (max_size : Nat) :
    List (String × CacheEntry V) → Option (List (String × CacheEntry V))
  | [] => if max_size = 0 then none else some []
  | e :: rest =>
    if rest.length + 1 ≥ max_size then evictWhile max_size rest else some (e :: rest)

/-- `AnalysisCache.set`: compute the key, evict least-recently-used entries
while the map is at or above capacity, then store
`{"data": result, "timestamp": now}` under the key. -/
def AnalysisCache.set {V : Type} (h : Hashes) (c : AnalysisCache V)
    (image_bytes : List Nat) (user_data : Profile) (result : V) (now : Nat) :
    Option (AnalysisCache V) :=
  let key := generate_key h image_bytes user_data
  (evictWhile c.max_size c.cache).map
    (fun l => { c with cache := odSet l key ⟨result, now⟩ })

/-- `AnalysisCache.clear`: empty the map, leave everything else alone. -/
def AnalysisCache.clear {V : Type} (c : AnalysisCache V) : AnalysisCache V :=
  { c with cache := [] }

/-- The snapshot returned by `AnalysisCache.stats` (`hit_rate` is the
percentage value before string formatting). -/
structure Stats where
  size : Nat
  max_size : Nat
  hits : Nat
  misses : Nat
  hit_rate : ℚ
  ttl_seconds : Nat
deriving DecidableEq, Repr

/-- `AnalysisCache.stats`: sizes, counters, and
`hits / (hits + misses) * 100` (0 when no lookup has happened). -/
def AnalysisCache.stats {V : Type} (c : AnalysisCache V) : Stats :=
  let total := c.hits + c.misses
  { size := c.cache.length
    max_size := c.max_size
    hits := c.hits
    misses := c.misses
    hit_rate := if total > 0 then (c.hits : ℚ) / (total : ℚ) * 100 else 0
    ttl_seconds := c.ttl }

/-- One client-visible cache operation, for stating invariants over
operation sequences. -/
inductive CacheOp (V : Type) where
  | doGet : List Nat → Profile → Nat → CacheOp V
  | doSet : List Nat → Profile → V → Nat → CacheOp V
  | doClear : CacheOp V

/-- Run a sequence of cache operations; `none` if some `set` raises. -/
def runOps {V : Type} (h : Hashes) (c : AnalysisCache V) :
    List (CacheOp V) → Option (AnalysisCache V)
  | [] => some c
  | .doGet img ud now :: ops => runOps h (AnalysisCache.get h c img ud now).2 ops
  | .doSet img ud res now :: ops =>
    match AnalysisCache.set h c img ud res now with
    | none => none
    | some c' => runOps h c' ops
  | .doClear :: ops => runOps h c.clear ops

/-! ### Helper lemmas about the ordered-map operations -/

theorem ne_true_of_false {b : Bool} (h : b = false) : ¬ b = true := by simp [h]

theorem find?_key_cons_of_pos {V : Type} (a : String × CacheEntry V)
    (t : List (String × CacheEntry V)) (k : String) (h : (a.1 == k) = true) :
    (a :: t).find? (fun p => p.1 == k) = some a :=
  List.find?_cons_of_pos t h

theorem find?_key_cons_of_neg {V : Type} (a : String × CacheEntry V)
    (t : List (String × CacheEntry V)) (k : String) (h : ¬ (a.1 == k) = true) :
    (a :: t).find? (fun p => p.1 == k) = t.find? (fun p => p.1 == k) :=
  List.find?_cons_of_neg t h

theorem eraseP_key_cons_of_pos {V : Type} (a : String × CacheEntry V)
    (t : List (String × CacheEntry V)) (k : String) (h : (a.1 == k) = true) :
    (a :: t).eraseP (fun p => p.1 == k) = t :=
  List.eraseP_cons_of_pos h

theorem eraseP_key_cons_of_neg {V : Type} (a : String × CacheEntry V)
    (t : List (String × CacheEntry V)) (k : String) (h : ¬ (a.1 == k) = true) :
    (a :: t).eraseP (fun p => p.1 == k) = a :: t.eraseP (fun p => p.1 == k) :=
  List.eraseP_cons_of_neg h

theorem any_key_cons_true {V : Type} (a : String × CacheEntry V)
    (t : List (String × CacheEntry V)) (k : String)
    (hc : (a :: t).any (fun p => p.1 == k) = true) (hk : ¬ (a.1 == k) = true) :
    t.any (fun p => p.1 == k) = true := by
  rw [List.any_cons] at hc
  rcases Bool.or_eq_true_iff.1 hc with h1 | h2
  · exact absurd h1 hk
  · exact h2

theorem find?_map_update {V : Type} (l : List (String × CacheEntry V)) (k : String)
    (e : CacheEntry V) (hc : l.any (fun p => p.1 == k) = true) :
    (l.map (fun p => if p.1 == k then (k, e) else p)).find? (fun p => p.1 == k) =
      some (k, e) := by
  induction l with
  | nil => simp at hc
  | cons a t ih =>
    rw [List.map_cons]
    by_cases hk : (a.1 == k) = true
    · rw [if_pos hk]
      exact find?_key_cons_of_pos _ _ _ (beq_self_eq_true k)
    · rw [if_neg hk, find?_key_cons_of_neg _ _ _ hk]
      exact ih (any_key_cons_true a t k hc hk)

theorem odFind?_odSet_self {V : Type} (l : List (String × CacheEntry V)) (k : String)
    (e : CacheEntry V) : odFind? (odSet l k e) k = some e := by
  unfold odSet
  by_cases hc : odContains l k = true
  · rw [if_pos hc, odFind?, find?_map_update l k e hc]
    rfl
  · have hnone : l.find? (fun p => p.1 == k) = none := by
      refine List.find?_eq_none.2 fun x hx hpk => ?_
      exact absurd hpk (List.any_eq_false.1 (Bool.eq_false_iff.2 hc) x hx)
    rw [if_neg hc, odFind?, List.find?_append, hnone, Option.none_or,
      find?_key_cons_of_pos _ _ _ (beq_self_eq_true k)]
    rfl

theorem find?_map_update_ne {V : Type} (l : List (String × CacheEntry V)) (k k' : String)
    (e : CacheEntry V) (hne : k' ≠ k) :
    (l.map (fun p => if p.1 == k then (k, e) else p)).find? (fun p => p.1 == k') =
      l.find? (fun p => p.1 == k') := by
  induction l with
  | nil => rfl
  | cons a t ih =>
    rw [List.map_cons]
    by_cases hk : (a.1 == k) = true
    · have hke : a.1 = k := beq_iff_eq.1 hk
      have h1 : ¬ (((k, e) : String × CacheEntry V).1 == k') = true := by
        refine ne_true_of_false (beq_eq_false_iff_ne.2 fun h => hne h.symm)
      have h2 : ¬ (a.1 == k') = true := by
        refine ne_true_of_false (beq_eq_false_iff_ne.2 fun h => hne (hke ▸ h).symm)
      rw [if_pos hk, find?_key_cons_of_neg _ _ _ h1, find?_key_cons_of_neg _ _ _ h2, ih]
    · rw [if_neg hk]
      by_cases hk' : (a.1 == k') = true
      · rw [find?_key_cons_of_pos _ _ _ hk', find?_key_cons_of_pos _ _ _ hk']
      · rw [find?_key_cons_of_neg _ _ _ hk', find?_key_cons_of_neg _ _ _ hk', ih]

theorem odFind?_odSet_of_ne {V : Type} (l : List (String × CacheEntry V)) (k k' : String)
    (e : CacheEntry V) (hne : k' ≠ k) : odFind? (odSet l k e) k' = odFind? l k' := by
  unfold odSet
  by_cases hc : odContains l k = true
  · rw [if_pos hc, odFind?, find?_map_update_ne l k k' e hne]
    rfl
  · have h1 : ¬ (((k, e) : String × CacheEntry V).1 == k') = true := by
      refine ne_true_of_false (beq_eq_false_iff_ne.2 fun h => hne h.symm)
    rw [if_neg hc, odFind?, List.find?_append, find?_key_cons_of_neg _ _ _ h1,
      List.find?_nil, Option.or_none]
    rfl

theorem odFind?_eq_none_of_not_contains {V : Type} (l : List (String × CacheEntry V))
    (k : String) (hc : odContains l k = false) : odFind? l k = none := by
  rw [odFind?, List.find?_eq_none.2 fun x hx hpk =>
    absurd hpk (List.any_eq_false.1 hc x hx)]
  rfl

theorem odContains_of_suffix {V : Type} {l l' : List (String × CacheEntry V)} {k : String}
    (hsuf : l' <:+ l) (hc : odContains l k = false) : odContains l' k = false := by
  exact List.any_eq_false.2 fun x hx => List.any_eq_false.1 hc x (hsuf.subset hx)

theorem odFind?_odErase_self {V : Type} (l : List (String × CacheEntry V)) (k : String)
    (hnd : (l.map Prod.fst).Nodup) : odFind? (odErase l k) k = none := by
  induction l with
  | nil => rfl
  | cons a t ih =>
    rw [List.map_cons] at hnd
    have hnd1 : a.1 ∉ t.map Prod.fst := (List.nodup_cons.1 hnd).1
    have hnd2 : (t.map Prod.fst).Nodup := (List.nodup_cons.1 hnd).2
    by_cases hk : (a.1 == k) = true
    · have hke : a.1 = k := beq_iff_eq.1 hk
      rw [odErase, eraseP_key_cons_of_pos _ _ _ hk]
      refine odFind?_eq_none_of_not_contains t k ?_
      refine List.any_eq_false.2 fun x hx hpk => ?_
      exact hnd1 (by
        have : x.1 = a.1 := (beq_iff_eq.1 hpk).trans hke.symm
        exact this ▸ List.mem_map_of_mem Prod.fst hx)
    · rw [odErase, eraseP_key_cons_of_neg _ _ _ hk, odFind?, find?_key_cons_of_neg _ _ _ hk]
      exact ih hnd2

theorem length_odSet {V : Type} (l : List (String × CacheEntry V)) (k : String)
    (e : CacheEntry V) :
    (odSet l k e).length = if odContains l k then l.length else l.length + 1 := by
  unfold odSet
  split <;> simp

theorem evictWhile_length {V : Type} (m : Nat) (l l' : List (String × CacheEntry V))
    (h : evictWhile m l = some l') : l'.length < m := by
  induction l with
  | nil =>
    unfold evictWhile at h
    split at h
    · exact absurd h (by simp)
    · rename_i hm
      cases h
      simp only [List.length_nil]
      omega
  | cons a t ih =>
    unfold evictWhile at h
    split at h
    · exact ih h
    · rename_i hlt
      cases h
      simp only [List.length_cons]
      omega

theorem evictWhile_isSome {V : Type} (m : Nat) (l : List (String × CacheEntry V))
    (hm : 1 ≤ m) : ∃ l', evictWhile m l = some l' := by
  induction l with
  | nil =>
    refine ⟨[], ?_⟩
    unfold evictWhile
    rw [if_neg (Nat.one_le_iff_ne_zero.1 hm)]
  | cons a t ih =>
    unfold evictWhile
    split
    · exact ih
    · exact ⟨a :: t, rfl⟩

theorem evictWhile_suffix {V : Type} (m : Nat) (l l' : List (String × CacheEntry V))
    (h : evictWhile m l = some l') : l' <:+ l := by
  induction l with
  | nil =>
    unfold evictWhile at h
    split at h
    · exact absurd h (by simp)
    · cases h
      exact List.suffix_refl []
  | cons a t ih =>
    unfold evictWhile at h
    split at h
    · exact (ih h).trans (List.suffix_cons a t)
    · cases h
      exact List.suffix_refl _

theorem evictWhile_of_lt {V : Type} (m : Nat) (l : List (String × CacheEntry V))
    (h : l.length < m) : evictWhile m l = some l := by
  cases l with
  | nil =>
    unfold evictWhile
    rw [if_neg]
    omega
  | cons a t =>
    unfold evictWhile
    rw [if_neg]
    simp only [List.length_cons] at h
    omega

theorem length_eraseP_of_find? {V : Type} (l : List (String × CacheEntry V))
    (p : String × CacheEntry V → Bool) (x : String × CacheEntry V)
    (h : l.find? p = some x) : (l.eraseP p).length + 1 = l.length := by
  exact List.length_eraseP_add_one (List.mem_of_find?_eq_some h) (List.find?_some h)

/-! ### State-shape lemmas for `get` and `set` -/

theorem set_eq_of_evict {V : Type} (hsh : Hashes) (c : AnalysisCache V) (img : List Nat)
    (ud : Profile) (res : V) (now : Nat) (l' : List (String × CacheEntry V))
    (hev : evictWhile c.max_size c.cache = some l') :
    AnalysisCache.set hsh c img ud res now =
      some { c with cache := odSet l' (generate_key hsh img ud) ⟨res, now⟩ } := by
  unfold AnalysisCache.set
  rw [hev]
  rfl

theorem get_miss_eq {V : Type} (hsh : Hashes) (c : AnalysisCache V) (img : List Nat)
    (ud : Profile) (now : Nat) (hf : odFind? c.cache (generate_key hsh img ud) = none) :
    AnalysisCache.get hsh c img ud now = (none, { c with misses := c.misses + 1 }) := by
  unfold AnalysisCache.get
  simp only [hf]

theorem get_expired_eq {V : Type} (hsh : Hashes) (c : AnalysisCache V) (img : List Nat)
    (ud : Profile) (now : Nat) (e : CacheEntry V)
    (hf : odFind? c.cache (generate_key hsh img ud) = some e)
    (hexp : now - e.timestamp > c.ttl) :
    AnalysisCache.get hsh c img ud now =
      (none, { c with cache := odErase c.cache (generate_key hsh img ud),
                      misses := c.misses + 1 }) := by
  unfold AnalysisCache.get
  simp only [hf]
  exact if_pos hexp

theorem get_hit_eq {V : Type} (hsh : Hashes) (c : AnalysisCache V) (img : List Nat)
    (ud : Profile) (now : Nat) (e : CacheEntry V)
    (hf : odFind? c.cache (generate_key hsh img ud) = some e)
    (hfresh : ¬ now - e.timestamp > c.ttl) :
    AnalysisCache.get hsh c img ud now =
      (some e.data,
        { c with cache := odErase c.cache (generate_key hsh img ud) ++
                            [(generate_key hsh img ud, e)],
                 hits := c.hits + 1 }) := by
  unfold AnalysisCache.get
  simp only [hf]
  exact if_neg hfresh

theorem get_state_bounds {V : Type} (hsh : Hashes) (c : AnalysisCache V) (img : List Nat)
    (ud : Profile) (now : Nat) :
    ((AnalysisCache.get hsh c img ud now).2).cache.length ≤ c.cache.length ∧
      ((AnalysisCache.get hsh c img ud now).2).max_size = c.max_size := by
  cases hf : odFind? c.cache (generate_key hsh img ud) with
  | none => rw [get_miss_eq hsh c img ud now hf]; exact ⟨le_refl _, rfl⟩
  | some e =>
    obtain ⟨p, hp, -⟩ := Option.map_eq_some'.1 hf
    have hlen := length_eraseP_of_find? c.cache _ p hp
    by_cases hexp : now - e.timestamp > c.ttl
    · rw [get_expired_eq hsh c img ud now e hf hexp]
      exact ⟨by simp only [odErase]; omega, rfl⟩
    · rw [get_hit_eq hsh c img ud now e hf hexp]
      refine ⟨?_, rfl⟩
      simp only [List.length_append, List.length_cons, List.length_nil, odErase]
      omega

theorem set_state_bounds {V : Type} (hsh : Hashes) (c c' : AnalysisCache V) (img : List Nat)
    (ud : Profile) (res : V) (now : Nat)
    (hset : AnalysisCache.set hsh c img ud res now = some c') :
    c'.cache.length ≤ c.max_size ∧ c'.max_size = c.max_size := by
  unfold AnalysisCache.set at hset
  obtain ⟨l', hl', rfl⟩ := Option.map_eq_some'.1 hset
  have hlt := evictWhile_length c.max_size c.cache l' hl'
  constructor
  · rw [show ({ c with cache := odSet l' (generate_key hsh img ud) ⟨res, now⟩ } :
        AnalysisCache V).cache = odSet l' (generate_key hsh img ud) ⟨res, now⟩ from rfl,
      length_odSet]
    split <;> omega
  · rfl

/-! ### Sorted-serialization lemmas -/

theorem sorted_keyLT_of_nodup {l : List (String × JVal)} (hs : List.Sorted keyLE l)
    (hnd : (l.map Prod.fst).Nodup) : List.Sorted keyLT l := by
  have hne : l.Pairwise (fun a b => a.1 ≠ b.1) := List.pairwise_map.1 hnd
  have hle : l.Pairwise keyLE := hs
  exact (hle.and hne).imp fun hab => lt_of_le_of_ne hab.1 hab.2

theorem sortProfile_perm_congr (p1 p2 : Profile) (hperm : p1.Perm p2)
    (hnd : (p1.map Prod.fst).Nodup) : sortProfile p1 = sortProfile p2 := by
  have hp1 : (sortProfile p1).Perm p1 := List.perm_insertionSort keyLE p1
  have hp2 : (sortProfile p2).Perm p2 := List.perm_insertionSort keyLE p2
  have hnd2 : (p2.map Prod.fst).Nodup := ((hperm.map Prod.fst).nodup_iff).1 hnd
  have hnd1' : ((sortProfile p1).map Prod.fst).Nodup := ((hp1.map Prod.fst).nodup_iff).2 hnd
  have hnd2' : ((sortProfile p2).map Prod.fst).Nodup := ((hp2.map Prod.fst).nodup_iff).2 hnd2
  have hs1 : List.Sorted keyLT (sortProfile p1) :=
    sorted_keyLT_of_nodup (List.sorted_insertionSort keyLE p1) hnd1'
  have hs2 : List.Sorted keyLT (sortProfile p2) :=
    sorted_keyLT_of_nodup (List.sorted_insertionSort keyLE p2) hnd2'
  exact List.eq_of_perm_of_sorted (hp1.trans (hperm.trans hp2.symm)) hs1 hs2

/-! ### Concrete objects used by witnesses and counterexamples -/

/-- A concrete stand-in for the digest pair, used only to build concrete
witness states (the per-claim theorems are proved for every `Hashes`). -/
def hsh0 : Hashes := ⟨fun bs => toString bs.length, fun s => toString s.length⟩

/-! ### The claims -/

/-- C5: for every image and every pair of profile mappings with the same
key/value pairs in different insertion orders (same entries up to
permutation, field names unique as in a dict), the fingerprint key is
identical, because the profile is serialized with its fields sorted by name
before hashing. -/
theorem claim_fingerprint_order_independent (hsh : Hashes) (img : List Nat)
    (p1 p2 : Profile) (hperm : p1.Perm p2) (hnd : (p1.map Prod.fst).Nodup) :
    generate_key hsh img p1 = generate_key hsh img p2 := by
  unfold generate_key dumpsProfile
  rw [sortProfile_perm_congr p1 p2 hperm hnd]

/-- Witness for C5 at a concrete pair of reordered profiles. -/
theorem claim_fingerprint_order_independent_witness :
    ([("b", JVal.num 1), ("a", JVal.str "x")] : Profile).Perm
        [("a", JVal.str "x"), ("b", JVal.num 1)] ∧
      (([("b", JVal.num 1), ("a", JVal.str "x")] : Profile).map Prod.fst).Nodup ∧
      generate_key hsh0 [0, 1] [("b", JVal.num 1), ("a", JVal.str "x")] =
        generate_key hsh0 [0, 1] [("a", JVal.str "x"), ("b", JVal.num 1)] :=
  ⟨by decide, by decide,
    claim_fingerprint_order_independent hsh0 [0, 1] _ _ (by decide) (by decide)⟩

/-- C8: `clear` empties the map (a subsequent `stats` reports size 0) and
leaves the hit and miss counters and the configuration unchanged. -/
theorem claim_clear_frame {V : Type} (c : AnalysisCache V) :
    c.clear.cache = [] ∧ c.clear.stats.size = 0 ∧
      c.clear.hits = c.hits ∧ c.clear.misses = c.misses ∧
      c.clear.stats.hits = c.hits ∧ c.clear.stats.misses = c.misses ∧
      c.clear.max_size = c.max_size ∧ c.clear.ttl = c.ttl :=
  ⟨rfl, rfl, rfl, rfl, rfl, rfl, rfl, rfl⟩

/-- C9: `stats` reports the current number of entries as `size`, echoes
`max_size`, `hits`, `misses` and `ttl_seconds` from the state, and reports
`hit_rate` as `hits / (hits + misses)` as a percentage, 0 when no lookup
has been counted. -/
theorem claim_stats_snapshot {V : Type} (c : AnalysisCache V) :
    c.stats.size = c.cache.length ∧ c.stats.max_size = c.max_size ∧
      c.stats.hits = c.hits ∧ c.stats.misses = c.misses ∧
      c.stats.ttl_seconds = c.ttl ∧
      (c.hits + c.misses = 0 → c.stats.hit_rate = 0) ∧
      (0 < c.hits + c.misses →
        c.stats.hit_rate = (c.hits : ℚ) / ((c.hits : ℚ) + (c.misses : ℚ)) * 100) := by
  refine ⟨rfl, rfl, rfl, rfl, rfl, ?_, ?_⟩
  · intro h
    unfold AnalysisCache.stats
    simp [h]
  · intro h
    unfold AnalysisCache.stats
    simp only [gt_iff_lt, h, if_true]
    push_cast
    ring

/-- Witness for C9 on a state with 3 hits and 1 miss. -/
theorem claim_stats_snapshot_witness :
    0 < 3 + 1 ∧
      (⟨2, 10, [], 3, 1⟩ : AnalysisCache Nat).stats.hit_rate =
        ((3 : Nat) : ℚ) / (((3 : Nat) : ℚ) + ((1 : Nat) : ℚ)) * 100 :=
  ⟨by decide, (claim_stats_snapshot (⟨2, 10, [], 3, 1⟩ : AnalysisCache Nat)).2.2.2.2.2.2
    (by decide)⟩

/-- C1: on a cache with capacity at least 1 and positive ttl, `set` followed
immediately by `get` with the same inputs (no time advance past the ttl)
returns exactly the stored result. -/
theorem claim_set_get_roundtrip {V : Type} (hsh : Hashes) (c : AnalysisCache V)
    (img : List Nat) (ud : Profile) (res : V) (t t' : Nat)
    (hcap : 1 ≤ c.max_size) (httl : 1 ≤ c.ttl) (hfresh : t' - t ≤ c.ttl) :
    ∃ c', AnalysisCache.set hsh c img ud res t = some c' ∧
      (AnalysisCache.get hsh c' img ud t').1 = some res := by
  obtain ⟨l', hl'⟩ := evictWhile_isSome c.max_size c.cache hcap
  refine ⟨_, set_eq_of_evict hsh c img ud res t l' hl', ?_⟩
  have hf : odFind?
      (({ c with cache := odSet l' (generate_key hsh img ud) ⟨res, t⟩ } :
        AnalysisCache V)).cache (generate_key hsh img ud) = some ⟨res, t⟩ :=
    odFind?_odSet_self l' (generate_key hsh img ud) ⟨res, t⟩
  rw [get_hit_eq hsh _ img ud t' ⟨res, t⟩ hf (by simpa using Nat.not_lt.2 hfresh)]

/-- Witness for C1: storing 7 in an empty cache of capacity 2 and reading it
back at the same instant. -/
theorem claim_set_get_roundtrip_witness :
    1 ≤ (AnalysisCache.init Nat 2 3600).max_size ∧
      1 ≤ (AnalysisCache.init Nat 2 3600).ttl ∧ 5 - 5 ≤ (AnalysisCache.init Nat 2 3600).ttl ∧
      ∃ c', AnalysisCache.set hsh0 (AnalysisCache.init Nat 2 3600) [0] [] 7 5 = some c' ∧
        (AnalysisCache.get hsh0 c' [0] [] 5).1 = some 7 :=
  ⟨by decide, by decide, by decide,
    claim_set_get_roundtrip hsh0 (AnalysisCache.init Nat 2 3600) [0] [] 7 5 5
      (by decide) (by decide) (by decide)⟩

/-- C2: an entry whose age at lookup exceeds the ttl is removed by `get`,
counted as a miss, and never returned; conversely every value `get` returns
comes from an entry with `now - created_at <= ttl`. -/
theorem claim_expired_never_served {V : Type} (hsh : Hashes) (c : AnalysisCache V)
    (img : List Nat) (ud : Profile) (now : Nat) :
    (∀ e : CacheEntry V, (c.cache.map Prod.fst).Nodup →
      odFind? c.cache (generate_key hsh img ud) = some e →
      now - e.timestamp > c.ttl →
      (AnalysisCache.get hsh c img ud now).1 = none ∧
        odFind? ((AnalysisCache.get hsh c img ud now).2).cache
          (generate_key hsh img ud) = none ∧
        ((AnalysisCache.get hsh c img ud now).2).misses = c.misses + 1) ∧
    (∀ v : V, (AnalysisCache.get hsh c img ud now).1 = some v →
      ∃ e : CacheEntry V, odFind? c.cache (generate_key hsh img ud) = some e ∧
        now - e.timestamp ≤ c.ttl ∧ v = e.data) := by
  constructor
  · intro e hnd hf hexp
    rw [get_expired_eq hsh c img ud now e hf hexp]
    exact ⟨rfl, odFind?_odErase_self c.cache (generate_key hsh img ud) hnd, rfl⟩
  · intro v hv
    cases hf : odFind? c.cache (generate_key hsh img ud) with
    | none =>
      rw [get_miss_eq hsh c img ud now hf] at hv
      exact absurd hv (by simp)
    | some e =>
      by_cases hexp : now - e.timestamp > c.ttl
      · rw [get_expired_eq hsh c img ud now e hf hexp] at hv
        exact absurd hv (by simp)
      · rw [get_hit_eq hsh c img ud now e hf hexp] at hv
        exact ⟨e, rfl, Nat.not_lt.1 (by simpa using hexp), (Option.some.inj hv).symm⟩

/-- Witness for C2: a cache holding one entry that is expired at lookup
time, and a fresh lookup returning the stored data. -/
theorem claim_expired_never_served_witness :
    ((([(generate_key hsh0 [0] [], (⟨7, 0⟩ : CacheEntry Nat))] :
        List (String × CacheEntry Nat)).map Prod.fst).Nodup ∧
      odFind? [(generate_key hsh0 [0] [], (⟨7, 0⟩ : CacheEntry Nat))]
        (generate_key hsh0 [0] []) = some ⟨7, 0⟩ ∧
      5000 - 0 > 3600 ∧
      (AnalysisCache.get hsh0 (⟨2, 3600, [(generate_key hsh0 [0] [], ⟨7, 0⟩)], 0, 0⟩ :
        AnalysisCache Nat) [0] [] 5000).1 = none) ∧
    ((AnalysisCache.get hsh0 (⟨2, 3600, [(generate_key hsh0 [0] [], ⟨7, 0⟩)], 0, 0⟩ :
        AnalysisCache Nat) [0] [] 100).1 = some 7 ∧
      ∃ e : CacheEntry Nat,
        odFind? [(generate_key hsh0 [0] [], (⟨7, 0⟩ : CacheEntry Nat))]
          (generate_key hsh0 [0] []) = some e ∧
        100 - e.timestamp ≤ 3600 ∧ 7 = e.data) := by
  constructor
  · refine ⟨by decide, by decide, by decide, ?_⟩
    exact ((claim_expired_never_served hsh0
      (⟨2, 3600, [(generate_key hsh0 [0] [], ⟨7, 0⟩)], 0, 0⟩ : AnalysisCache Nat)
      [0] [] 5000).1 ⟨7, 0⟩ (by decide) (by decide) (by decide)).1
  · refine ⟨by decide, ?_⟩
    exact (claim_expired_never_served hsh0
      (⟨2, 3600, [(generate_key hsh0 [0] [], ⟨7, 0⟩)], 0, 0⟩ : AnalysisCache Nat)
      [0] [] 100).2 7 (by decide)

/-- C7: for every cache with capacity at least 1 and arbitrary image bytes
(including empty and shorter than the sample window), `set` always succeeds
(eviction makes room, nothing is raised), and fingerprint sampling degrades
gracefully: a short image is sampled as the whole buffer (twice). `get`,
`clear` and `stats` are total functions of the state in this embedding, so
they cannot fail. -/
theorem claim_ops_never_raise {V : Type} (hsh : Hashes) (c : AnalysisCache V)
    (img : List Nat) (ud : Profile) (res : V) (now : Nat) (hcap : 1 ≤ c.max_size) :
    (∃ c', AnalysisCache.set hsh c img ud res now = some c') ∧
      (img.length ≤ 10240 → imageSample img = img ++ img) := by
  constructor
  · obtain ⟨l', hl'⟩ := evictWhile_isSome c.max_size c.cache hcap
    exact ⟨_, set_eq_of_evict hsh c img ud res now l' hl'⟩
  · intro hlen
    unfold imageSample
    rw [List.take_of_length_le hlen, Nat.sub_eq_zero_of_le hlen, List.drop_zero]

/-- Witness for C7 on the empty image and an empty cache. -/
theorem claim_ops_never_raise_witness :
    1 ≤ (AnalysisCache.init Nat 3 60).max_size ∧
      (∃ c', AnalysisCache.set hsh0 (AnalysisCache.init Nat 3 60) [] [] 1 0 = some c') ∧
      (([] : List Nat).length ≤ 10240 → imageSample [] = [] ++ []) :=
  ⟨by decide,
    (claim_ops_never_raise hsh0 (AnalysisCache.init Nat 3 60) [] [] 1 0 (by decide)).1,
    (claim_ops_never_raise hsh0 (AnalysisCache.init Nat 3 60) [] [] 1 0 (by decide)).2⟩

/-- C3: starting from any state within capacity (in particular the fresh
empty cache), every sequence of `get`, `set` and `clear` operations on a
cache of capacity at least 1 keeps `len(entries) <= capacity`: `set` evicts
until strictly below capacity before inserting, and no other operation
grows the map. -/
theorem claim_size_invariant {V : Type} (hsh : Hashes) (ops : List (CacheOp V))
    (c c' : AnalysisCache V) (hcap : 1 ≤ c.max_size)
    (hinv : c.cache.length ≤ c.max_size) (hrun : runOps hsh c ops = some c') :
    c'.cache.length ≤ c'.max_size := by
  induction ops generalizing c with
  | nil =>
    cases hrun
    exact hinv
  | cons op ops ih =>
    cases op with
    | doGet img ud now =>
      have hb := get_state_bounds hsh c img ud now
      exact ih (AnalysisCache.get hsh c img ud now).2 (hb.2 ▸ hcap)
        (le_trans hb.1 (hb.2 ▸ hinv)) hrun
    | doSet img ud res now =>
      rw [runOps] at hrun
      cases hset : AnalysisCache.set hsh c img ud res now with
      | none => rw [hset] at hrun; exact absurd hrun (by simp)
      | some c1 =>
        rw [hset] at hrun
        have hb := set_state_bounds hsh c c1 img ud res now hset
        exact ih c1 (hb.2 ▸ hcap) (hb.2 ▸ hb.1) hrun
    | doClear =>
      exact ih c.clear hcap (Nat.zero_le _) hrun

/-- Witness for C3: a concrete two-operation run on a fresh cache of
capacity 2. -/
theorem claim_size_invariant_witness :
    1 ≤ (AnalysisCache.init Nat 2 100).max_size ∧
      (AnalysisCache.init Nat 2 100).cache.length ≤ (AnalysisCache.init Nat 2 100).max_size ∧
      runOps hsh0 (AnalysisCache.init Nat 2 100)
          [CacheOp.doSet [0] [] 5 0, CacheOp.doGet [0] [] 1] =
        some ⟨2, 100, [(generate_key hsh0 [0] [], ⟨5, 0⟩)], 1, 0⟩ ∧
      ((⟨2, 100, [(generate_key hsh0 [0] [], ⟨5, 0⟩)], 1, 0⟩ :
          AnalysisCache Nat)).cache.length ≤
        ((⟨2, 100, [(generate_key hsh0 [0] [], ⟨5, 0⟩)], 1, 0⟩ :
          AnalysisCache Nat)).max_size :=
  ⟨by decide, by decide, by decide,
    claim_size_invariant hsh0 [CacheOp.doSet [0] [] 5 0, CacheOp.doGet [0] [] 1]
      (AnalysisCache.init Nat 2 100) _ (by decide) (by decide) (by decide)⟩

/-- C10: on a cache of capacity at least 2 that is exactly at capacity,
`set` for a key that is already present but is not the least-recently-used
entry still evicts the least-recently-used entry before overwriting in
place, leaving exactly capacity - 1 entries: eviction is driven by size
alone. -/
theorem claim_set_existing_at_capacity {V : Type} (hsh : Hashes) (c : AnalysisCache V)
    (img : List Nat) (ud : Profile) (res : V) (now : Nat)
    (e0 : String × CacheEntry V) (rest : List (String × CacheEntry V))
    (hshape : c.cache = e0 :: rest) (hlen : c.cache.length = c.max_size)
    (hcap : 2 ≤ c.max_size) (hne : e0.1 ≠ generate_key hsh img ud)
    (hmem : odContains rest (generate_key hsh img ud) = true) :
    ∃ c', AnalysisCache.set hsh c img ud res now = some c' ∧
      c'.cache.length = c.max_size - 1 := by
  have hrest : rest.length + 1 = c.max_size := by
    rw [hshape] at hlen
    simpa using hlen
  have hev : evictWhile c.max_size c.cache = some rest := by
    rw [hshape]
    unfold evictWhile
    rw [if_pos (by omega)]
    exact evictWhile_of_lt c.max_size rest (by omega)
  refine ⟨_, set_eq_of_evict hsh c img ud res now rest hev, ?_⟩
  rw [show ({ c with cache := odSet rest (generate_key hsh img ud) ⟨res, now⟩ } :
      AnalysisCache V).cache = odSet rest (generate_key hsh img ud) ⟨res, now⟩ from rfl,
    length_odSet, if_pos hmem]
  omega

/-- Witness for C10: capacity 2, two entries, overwriting the
most-recently-used one evicts the other and leaves one entry. -/
theorem claim_set_existing_at_capacity_witness :
    (⟨2, 60, [(generate_key hsh0 [0] [], ⟨1, 0⟩), (generate_key hsh0 [0, 0] [], ⟨2, 0⟩)],
        0, 0⟩ : AnalysisCache Nat).cache =
      (generate_key hsh0 [0] [], (⟨1, 0⟩ : CacheEntry Nat)) ::
        [(generate_key hsh0 [0, 0] [], ⟨2, 0⟩)] ∧
      generate_key hsh0 [0] [] ≠ generate_key hsh0 [0, 0] [] ∧
      odContains [(generate_key hsh0 [0, 0] [], (⟨2, 0⟩ : CacheEntry Nat))]
        (generate_key hsh0 [0, 0] []) = true ∧
      ∃ c', AnalysisCache.set hsh0
          (⟨2, 60, [(generate_key hsh0 [0] [], ⟨1, 0⟩), (generate_key hsh0 [0, 0] [], ⟨2, 0⟩)],
            0, 0⟩ : AnalysisCache Nat) [0, 0] [] 9 5 = some c' ∧
        c'.cache.length = 2 - 1 :=
  ⟨by decide, by decide, by decide,
    claim_set_existing_at_capacity hsh0 _ [0, 0] [] 9 5
      (generate_key hsh0 [0] [], ⟨1, 0⟩) [(generate_key hsh0 [0, 0] [], ⟨2, 0⟩)]
      rfl (by decide) (by decide) (by decide) (by decide)⟩

theorem odSet_absent {V : Type} (l : List (String × CacheEntry V)) (k : String)
    (e : CacheEntry V) (h : odContains l k = false) : odSet l k e = l ++ [(k, e)] := by
  unfold odSet
  rw [if_neg (ne_true_of_false h)]

/-- C6 counterexample: with capacity 3, after inserting three distinct keys
and then calling `set` again for the middle key (which survives the one
eviction), the overwritten entry keeps its old position at the
least-recently-used end: the most-recently-used slot is held by a different
key, even though the key is still present. `OrderedDict` assignment to an
existing key does not move it. -/
theorem claim_set_overwrite_not_mru_cex :
    (runOps hsh0 (AnalysisCache.init Nat 3 3600)
        [CacheOp.doSet [0] [] 1 10, CacheOp.doSet [0, 0] [] 2 11,
          CacheOp.doSet [0, 0, 0] [] 3 12, CacheOp.doSet [0, 0] [] 4 13]).map
        (fun cf => (odContains cf.cache (generate_key hsh0 [0, 0] []),
          cf.cache.getLast?.map Prod.fst)) =
      some (true, some (generate_key hsh0 [0, 0, 0] [])) ∧
      generate_key hsh0 [0, 0, 0] [] ≠ generate_key hsh0 [0, 0] [] := by
  constructor
  · decide
  · decide

/-- C6 amended: a `set` whose key is not already present leaves the new
entry in the most-recently-used position, and a successful `get` hit moves
its entry to the most-recently-used position; a `set` that overwrites an
existing surviving key leaves that entry at its previous position. -/
theorem claim_set_recency_amended {V : Type} (hsh : Hashes) (c : AnalysisCache V)
    (img : List Nat) (ud : Profile) (res : V) (now : Nat) :
    (1 ≤ c.max_size → odContains c.cache (generate_key hsh img ud) = false →
      ∃ c', AnalysisCache.set hsh c img ud res now = some c' ∧
        c'.cache.getLast?.map Prod.fst = some (generate_key hsh img ud)) ∧
    (∀ (v : V) (c'' : AnalysisCache V),
      AnalysisCache.get hsh c img ud now = (some v, c'') →
      c''.cache.getLast?.map Prod.fst = some (generate_key hsh img ud)) := by
  constructor
  · intro hcap habs
    obtain ⟨l', hl'⟩ := evictWhile_isSome c.max_size c.cache hcap
    have habs' : odContains l' (generate_key hsh img ud) = false :=
      odContains_of_suffix (evictWhile_suffix c.max_size c.cache l' hl') habs
    refine ⟨_, set_eq_of_evict hsh c img ud res now l' hl', ?_⟩
    rw [show ({ c with cache := odSet l' (generate_key hsh img ud) ⟨res, now⟩ } :
        AnalysisCache V).cache = odSet l' (generate_key hsh img ud) ⟨res, now⟩ from rfl,
      odSet_absent l' (generate_key hsh img ud) ⟨res, now⟩ habs',
      List.getLast?_concat]
    rfl
  · intro v c'' hget
    cases hf : odFind? c.cache (generate_key hsh img ud) with
    | none =>
      rw [get_miss_eq hsh c img ud now hf] at hget
      simp at hget
    | some e =>
      by_cases hexp : now - e.timestamp > c.ttl
      · rw [get_expired_eq hsh c img ud now e hf hexp] at hget
        simp at hget
      · rw [get_hit_eq hsh c img ud now e hf hexp] at hget
        injection hget with h1 h2
        rw [← h2, show ({ c with
            cache := odErase c.cache (generate_key hsh img ud) ++
              [(generate_key hsh img ud, e)],
            hits := c.hits + 1 } : AnalysisCache V).cache =
            odErase c.cache (generate_key hsh img ud) ++
              [(generate_key hsh img ud, e)] from rfl,
          List.getLast?_concat]
        rfl

/-- Witness for the amended C6: a fresh insert lands at the
most-recently-used end, and a concrete `get` hit moves the entry there. -/
theorem claim_set_recency_amended_witness :
    (1 ≤ (AnalysisCache.init Nat 2 60).max_size ∧
      odContains (AnalysisCache.init Nat 2 60).cache (generate_key hsh0 [0] []) = false ∧
      ∃ c', AnalysisCache.set hsh0 (AnalysisCache.init Nat 2 60) [0] [] 1 0 = some c' ∧
        c'.cache.getLast?.map Prod.fst = some (generate_key hsh0 [0] [])) ∧
    (AnalysisCache.get hsh0
        (⟨2, 60, [(generate_key hsh0 [0] [], ⟨7, 0⟩), (generate_key hsh0 [0, 0] [], ⟨8, 0⟩)],
          0, 0⟩ : AnalysisCache Nat) [0] [] 1 =
        (some 7, ⟨2, 60, [(generate_key hsh0 [0, 0] [], ⟨8, 0⟩),
          (generate_key hsh0 [0] [], ⟨7, 0⟩)], 1, 0⟩) ∧
      ((⟨2, 60, [(generate_key hsh0 [0, 0] [], ⟨8, 0⟩), (generate_key hsh0 [0] [], ⟨7, 0⟩)],
          1, 0⟩ : AnalysisCache Nat)).cache.getLast?.map Prod.fst =
        some (generate_key hsh0 [0] [])) := by
  constructor
  · exact ⟨by decide, by decide,
      (claim_set_recency_amended hsh0 (AnalysisCache.init Nat 2 60) [0] [] 1 0).1
        (by decide) (by decide)⟩
  · exact ⟨by decide,
      (claim_set_recency_amended hsh0
        (⟨2, 60, [(generate_key hsh0 [0] [], ⟨7, 0⟩), (generate_key hsh0 [0, 0] [], ⟨8, 0⟩)],
          0, 0⟩ : AnalysisCache Nat) [0] [] 7 1).2 7 _ (by decide)⟩

/-- C4: on a fresh cache with capacity 2 and ttl 3600, for inputs whose
fingerprints are three distinct keys A, B, C: after `set A`, `set B`, a
`get A` that hits, and `set C`, key B has been evicted, A and C remain with
their stored data, and `stats` reports size 2, hits 1, misses 0. -/
theorem claim_lru_scenario {V : Type} (hsh : Hashes) (iA iB iC : List Nat)
    (pA pB pC : Profile) (rA rB rC : V) (t0 t1 t2 t3 : Nat)
    (hAB : generate_key hsh iA pA ≠ generate_key hsh iB pB)
    (hAC : generate_key hsh iA pA ≠ generate_key hsh iC pC)
    (hBC : generate_key hsh iB pB ≠ generate_key hsh iC pC)
    (hhit : t2 - t0 ≤ 3600) :
    ∃ cf, runOps hsh (AnalysisCache.init V 2 3600)
        [CacheOp.doSet iA pA rA t0, CacheOp.doSet iB pB rB t1,
          CacheOp.doGet iA pA t2, CacheOp.doSet iC pC rC t3] = some cf ∧
      odFind? cf.cache (generate_key hsh iB pB) = none ∧
      odFind? cf.cache (generate_key hsh iA pA) = some ⟨rA, t0⟩ ∧
      odFind? cf.cache (generate_key hsh iC pC) = some ⟨rC, t3⟩ ∧
      cf.stats.size = 2 ∧ cf.stats.hits = 1 ∧ cf.stats.misses = 0 := by
  have hABf : (generate_key hsh iA pA == generate_key hsh iB pB) = false :=
    beq_eq_false_iff_ne.2 hAB
  have hACf : (generate_key hsh iA pA == generate_key hsh iC pC) = false :=
    beq_eq_false_iff_ne.2 hAC
  have hCBf : (generate_key hsh iC pC == generate_key hsh iB pB) = false :=
    beq_eq_false_iff_ne.2 (Ne.symm hBC)
  have e1 : AnalysisCache.set hsh (AnalysisCache.init V 2 3600) iA pA rA t0 =
      some ⟨2, 3600, [(generate_key hsh iA pA, ⟨rA, t0⟩)], 0, 0⟩ := by
    rw [set_eq_of_evict hsh (AnalysisCache.init V 2 3600) iA pA rA t0 []
      (evictWhile_of_lt 2 [] (by simp))]
    rfl
  have e2 : AnalysisCache.set hsh
      (⟨2, 3600, [(generate_key hsh iA pA, ⟨rA, t0⟩)], 0, 0⟩ : AnalysisCache V)
      iB pB rB t1 =
      some ⟨2, 3600, [(generate_key hsh iA pA, ⟨rA, t0⟩),
        (generate_key hsh iB pB, ⟨rB, t1⟩)], 0, 0⟩ := by
    rw [set_eq_of_evict hsh _ iB pB rB t1 [(generate_key hsh iA pA, ⟨rA, t0⟩)]
      (evictWhile_of_lt 2 _ (by simp))]
    rw [show odSet [(generate_key hsh iA pA, (⟨rA, t0⟩ : CacheEntry V))]
        (generate_key hsh iB pB) ⟨rB, t1⟩ =
        [(generate_key hsh iA pA, ⟨rA, t0⟩)] ++ [(generate_key hsh iB pB, ⟨rB, t1⟩)]
      from odSet_absent _ _ _ (by simp [odContains, hABf])]
    rfl
  have hfA : odFind? [(generate_key hsh iA pA, (⟨rA, t0⟩ : CacheEntry V)),
      (generate_key hsh iB pB, ⟨rB, t1⟩)] (generate_key hsh iA pA) = some ⟨rA, t0⟩ := by
    rw [odFind?, find?_key_cons_of_pos (generate_key hsh iA pA, ⟨rA, t0⟩)
      [(generate_key hsh iB pB, ⟨rB, t1⟩)] (generate_key hsh iA pA) (beq_self_eq_true _)]
    rfl
  have e3 : AnalysisCache.get hsh
      (⟨2, 3600, [(generate_key hsh iA pA, ⟨rA, t0⟩),
        (generate_key hsh iB pB, ⟨rB, t1⟩)], 0, 0⟩ : AnalysisCache V) iA pA t2 =
      (some rA, ⟨2, 3600, [(generate_key hsh iB pB, ⟨rB, t1⟩),
        (generate_key hsh iA pA, ⟨rA, t0⟩)], 1, 0⟩) := by
    rw [get_hit_eq hsh _ iA pA t2 ⟨rA, t0⟩ hfA (Nat.not_lt.2 hhit)]
    rw [show odErase [(generate_key hsh iA pA, (⟨rA, t0⟩ : CacheEntry V)),
        (generate_key hsh iB pB, ⟨rB, t1⟩)] (generate_key hsh iA pA) =
        [(generate_key hsh iB pB, ⟨rB, t1⟩)]
      from eraseP_key_cons_of_pos _ _ _ (beq_self_eq_true _)]
    rfl
  have hev4 : evictWhile 2 [(generate_key hsh iB pB, (⟨rB, t1⟩ : CacheEntry V)),
      (generate_key hsh iA pA, ⟨rA, t0⟩)] =
      some [(generate_key hsh iA pA, ⟨rA, t0⟩)] := by
    unfold evictWhile
    rw [if_pos (by simp)]
    exact evictWhile_of_lt 2 _ (by simp)
  have e4 : AnalysisCache.set hsh
      (⟨2, 3600, [(generate_key hsh iB pB, ⟨rB, t1⟩),
        (generate_key hsh iA pA, ⟨rA, t0⟩)], 1, 0⟩ : AnalysisCache V) iC pC rC t3 =
      some ⟨2, 3600, [(generate_key hsh iA pA, ⟨rA, t0⟩),
        (generate_key hsh iC pC, ⟨rC, t3⟩)], 1, 0⟩ := by
    rw [set_eq_of_evict hsh _ iC pC rC t3 [(generate_key hsh iA pA, ⟨rA, t0⟩)] hev4]
    rw [show odSet [(generate_key hsh iA pA, (⟨rA, t0⟩ : CacheEntry V))]
        (generate_key hsh iC pC) ⟨rC, t3⟩ =
        [(generate_key hsh iA pA, ⟨rA, t0⟩)] ++ [(generate_key hsh iC pC, ⟨rC, t3⟩)]
      from odSet_absent _ _ _ (by simp [odContains, hACf])]
    rfl
  have hfinB : odFind? [(generate_key hsh iA pA, (⟨rA, t0⟩ : CacheEntry V)),
      (generate_key hsh iC pC, ⟨rC, t3⟩)] (generate_key hsh iB pB) = none := by
    rw [odFind?, find?_key_cons_of_neg (generate_key hsh iA pA, ⟨rA, t0⟩)
        [(generate_key hsh iC pC, ⟨rC, t3⟩)] (generate_key hsh iB pB)
        (ne_true_of_false hABf),
      find?_key_cons_of_neg (generate_key hsh iC pC, ⟨rC, t3⟩) []
        (generate_key hsh iB pB) (ne_true_of_false hCBf), List.find?_nil]
    rfl
  have hfinA : odFind? [(generate_key hsh iA pA, (⟨rA, t0⟩ : CacheEntry V)),
      (generate_key hsh iC pC, ⟨rC, t3⟩)] (generate_key hsh iA pA) = some ⟨rA, t0⟩ := by
    rw [odFind?, find?_key_cons_of_pos (generate_key hsh iA pA, ⟨rA, t0⟩)
      [(generate_key hsh iC pC, ⟨rC, t3⟩)] (generate_key hsh iA pA) (beq_self_eq_true _)]
    rfl
  have hfinC : odFind? [(generate_key hsh iA pA, (⟨rA, t0⟩ : CacheEntry V)),
      (generate_key hsh iC pC, ⟨rC, t3⟩)] (generate_key hsh iC pC) = some ⟨rC, t3⟩ := by
    rw [odFind?, find?_key_cons_of_neg (generate_key hsh iA pA, ⟨rA, t0⟩)
        [(generate_key hsh iC pC, ⟨rC, t3⟩)] (generate_key hsh iC pC)
        (ne_true_of_false hACf),
      find?_key_cons_of_pos (generate_key hsh iC pC, ⟨rC, t3⟩) []
        (generate_key hsh iC pC) (beq_self_eq_true _)]
    rfl
  refine ⟨⟨2, 3600, [(generate_key hsh iA pA, ⟨rA, t0⟩),
    (generate_key hsh iC pC, ⟨rC, t3⟩)], 1, 0⟩, ?_, hfinB, hfinA, hfinC, rfl, rfl, rfl⟩
  simp only [runOps, e1, e2, e3, e4]

/-- Witness for C4 at three concrete inputs with distinct fingerprints. -/
theorem claim_lru_scenario_witness :
    generate_key hsh0 [0] [] ≠ generate_key hsh0 [0, 0] [] ∧
      generate_key hsh0 [0] [] ≠ generate_key hsh0 [0, 0, 0] [] ∧
      generate_key hsh0 [0, 0] [] ≠ generate_key hsh0 [0, 0, 0] [] ∧
      2 - 0 ≤ 3600 ∧
      ∃ cf, runOps hsh0 (AnalysisCache.init Nat 2 3600)
          [CacheOp.doSet [0] [] 1 0, CacheOp.doSet [0, 0] [] 2 1,
            CacheOp.doGet [0] [] 2, CacheOp.doSet [0, 0, 0] [] 3 3] = some cf ∧
        odFind? cf.cache (generate_key hsh0 [0, 0] []) = none ∧
        odFind? cf.cache (generate_key hsh0 [0] []) = some ⟨1, 0⟩ ∧
        odFind? cf.cache (generate_key hsh0 [0, 0, 0] []) = some ⟨3, 3⟩ ∧
        cf.stats.size = 2 ∧ cf.stats.hits = 1 ∧ cf.stats.misses = 0 :=
  ⟨by decide, by decide, by decide, by decide,
    claim_lru_scenario hsh0 [0] [0, 0] [0, 0, 0] [] [] [] 1 2 3 0 1 2 3
      (by decide) (by decide) (by decide) (by decide)⟩

end SkinCache
